import Mathlib

/-!
Shallow embedding of the raffle-ticket ledger of `bot.py`.

The persisted state is a JSON file holding `{"participants": {...}}`; the
store is modelled as `Option JValue` (`none` = the file does not exist).
Pure ledger operations (`tickets_from_fe`, `build_pool`, the grant logic of
the `/add` handler, the `/draw` selection, the `/list` sort) are embedded as
Lean functions over an association list that mirrors the insertion-ordered
Python dict.  Handler-level functions (`*_run`) mirror each command's
load/save behaviour on the store.
-/

namespace Raffle

/-- One participant record, as stored under `data["participants"][user_id]`:
`{"name": ..., "fe_total": ..., "tickets": ...}`. -/
structure Participant where
  name : String
  fe_total : Int
  tickets : Int
deriving DecidableEq, Repr

/-- The `participants` mapping: an association list from user id to record,
mirroring the insertion-ordered Python dict. -/
abbrev Ledger := List (String × Participant)

/-- `TICKET_FE_RATIO = 5000` in `bot.py`. -/
def TICKET_FE_RATIO : Int := 5000

/-- `PRIZE_FE = 10000` in `bot.py`. -/
def PRIZE_FE : Int := 10000

/-- `tickets_from_fe(fe_value) = fe_value // TICKET_FE_RATIO`; Python `//`
is floor division, i.e. `Int.fdiv`. -/
def tickets_from_fe (fe_value : Int) : Int :=
  Int.fdiv fe_value TICKET_FE_RATIO

/-- `build_pool`: for each participant, extend the pool with
`[user_id] * info["tickets"]` (an empty list when `tickets <= 0`, exactly as
Python list repetition behaves). -/
def build_pool (participants : Ledger) : List String :=
  participants.flatMap fun e => List.replicate e.2.tickets.toNat e.1

/-- First-match lookup in the participants mapping (Python dict access has
unique keys; reachable ledgers have no duplicate ids). -/
def lookup? (ps : Ledger) (uid : String) : Option Participant :=
  match ps with
  | [] => none
  | e :: rest => if e.1 == uid then some e.2 else lookup? rest uid

/-- `user_id in participants`. -/
def hasKey (ps : Ledger) (uid : String) : Bool :=
  ps.any fun e => e.1 == uid

/-- Update the (first) entry with key `uid` in place. -/
def updateEntry (ps : Ledger) (uid : String) (f : Participant → Participant) : Ledger :=
  match ps with
  | [] => []
  | e :: rest =>
      if e.1 == uid then (e.1, f e.2) :: rest else e :: updateEntry rest uid f

/-- The mutation performed by the `/add` handler after validation: create the
record (all fields zero, keyed at the end of the dict) if absent, then set
`name`, add `fe_value` to `fe_total` and `gained` to `tickets`. -/
def applyGrant (ps : Ledger) (uid name : String) (fe_value gained : Int) : Ledger :=
  let base := if hasKey ps uid then ps else ps ++ [(uid, ⟨name, 0, 0⟩)]
  updateEntry base uid fun p => ⟨name, p.fe_total + fe_value, p.tickets + gained⟩

/-- The two rejection branches of the `/add` handler. -/
inductive GrantError where
  | invalidAmount
  | noTicketsGranted
deriving DecidableEq, Repr

/-- Ledger-level grant: the `/add` handler's logic after context validation.
`fe_value <= 0` is rejected first; then `gained == 0` is rejected; otherwise
the ledger is mutated. -/
def add_participant (ps : Ledger) (uid name : String) (fe_value : Int) :
    Except GrantError Ledger :=
  if fe_value ≤ 0 then .error .invalidAmount
  else
    let gained := tickets_from_fe fe_value
    if gained = 0 then .error .noTicketsGranted
    else .ok (applyGrant ps uid name fe_value gained)

/-- The rejection branch of the `/draw` handler. -/
inductive DrawError where
  | emptyPool
deriving DecidableEq, Repr

/-- `/draw` selection: `random.choice(pool)` is modelled by an arbitrary
choice index reduced modulo the pool length; the handler errors out first
when the pool is empty. -/
def draw_winner (ps : Ledger) (choice : Nat) : Except DrawError String :=
  let pool := build_pool ps
  if pool.isEmpty then .error .emptyPool
  else .ok (pool.getD (choice % pool.length) "")

/-- `/list`: `sorted(participants.values(), key tickets, reverse=True)`;
Python `sorted` is a stable sort, so it coincides with the stable
`List.mergeSort` under the reversed comparison. -/
def list_participants (ps : Ledger) : List Participant :=
  (ps.map Prod.snd).mergeSort fun a b => b.tickets ≤ a.tickets

/-- `/status`: `data["participants"].get(str(member.id))`. -/
def participant_status (ps : Ledger) (uid : String) : Option Participant :=
  lookup? ps uid

/-- `/reset` replaces the ledger with an empty mapping. -/
def reset_raffle : Ledger := []

/-! ### The persisted JSON store -/

/-- JSON values as `json.load`/`json.dump` handle them (floats do not occur
in this program's data). -/
inductive JValue where
  | null
  | bool (b : Bool)
  | int (n : Int)
  | str (s : String)
  | arr (elems : List JValue)
  | obj (fields : List (String × JValue))

/-- `key in data` for a JSON object. -/
def hasField (fields : List (String × JValue)) (key : String) : Bool :=
  fields.any fun e => e.1 == key

/-- `data[key]` for a JSON object (first match; `json.load` output has
unique keys). -/
def getField : List (String × JValue) → String → Option JValue
  | [], _ => none
  | e :: rest, key => if e.1 == key then some e.2 else getField rest key

/-- `data[key] = v`: overwrite the first binding of `key`, or append it
(Python dict item assignment). -/
def setField : List (String × JValue) → String → JValue → List (String × JValue)
  | [], key, v => [(key, v)]
  | e :: rest, key, v =>
      if e.1 == key then (key, v) :: rest else e :: setField rest key v

/-- `pat in s` for Python strings is a substring test. -/
def strContains (s pat : String) : Bool :=
  2 ≤ (s.splitOn pat).length

/-- Result of `load_data`: either a JSON value, or the uncaught `TypeError`
Python raises when the loaded value is not a dict and either the `in` test
or the item assignment is unsupported. -/
inductive LoadResult where
  | ok (data : JValue)
  | typeError

/-- The file on disk: `none` when `raffle_data.json` does not exist. -/
abbrev Store := Option JValue

/-- `load_data()`: returns `{"participants": {}}` when the file is absent;
otherwise loads the JSON and inserts `"participants": {}` when that key is
missing.  On a non-dict top level, Python's `"participants" not in data`
membership test and the subsequent item assignment behave as modelled per
case (element test on lists, substring test on strings, `TypeError`
otherwise). -/
def load_data (store : Store) : LoadResult :=
  match store with
  | none => .ok (JValue.obj [("participants", JValue.obj [])])
  | some (JValue.obj fields) =>
      if hasField fields "participants" then .ok (JValue.obj fields)
      else .ok (JValue.obj (fields ++ [("participants", JValue.obj [])]))
  | some (JValue.arr elems) =>
      if elems.any fun e =>
          match e with
          | JValue.str s => s == "participants"
          | _ => false
      then .ok (JValue.arr elems)
      else .typeError
  | some (JValue.str s) =>
      if strContains s "participants" then .ok (JValue.str s)
      else .typeError
  | some _ => .typeError

/-- `save_data(data)`: overwrite the file with the serialized value. -/
def save_data (data : JValue) : Store :=
  some data

/-- Encoding of one participant record as stored on disk. -/
def partJson (p : Participant) : JValue :=
  JValue.obj [("name", JValue.str p.name), ("fe_total", JValue.int p.fe_total),
    ("tickets", JValue.int p.tickets)]

/-- Encoding of the participants mapping. -/
def ledgerJson (ps : Ledger) : JValue :=
  JValue.obj (ps.map fun e => (e.1, partJson e.2))

/-- Encoding of the whole data file `{"participants": {...}}`. -/
def dataJson (ps : Ledger) : JValue :=
  JValue.obj [("participants", ledgerJson ps)]

/-- Decoding of one participant record. -/
def decodePart (v : JValue) : Option Participant :=
  match v with
  | JValue.obj fields =>
      match getField fields "name", getField fields "fe_total",
          getField fields "tickets" with
      | some (JValue.str n), some (JValue.int f), some (JValue.int t) =>
          some ⟨n, f, t⟩
      | _, _, _ => none
  | _ => none

/-- Decoding of the entries of a participants object. -/
def decodeEntries : List (String × JValue) → Option Ledger
  | [] => some []
  | e :: rest =>
      match decodePart e.2, decodeEntries rest with
      | some p, some ps => some ((e.1, p) :: ps)
      | _, _ => none

/-- Decoding of a participants mapping; `none` when the value is not an
object of well-shaped records. -/
def decodeLedger (v : JValue) : Option Ledger :=
  match v with
  | JValue.obj fields => decodeEntries fields
  | _ => none

/-- `load_data()["participants"]` read back as a ledger; `none` when the
handler would crash on the loaded value's shape. -/
def loadParticipants (store : Store) : Option Ledger :=
  match load_data store with
  | .ok (JValue.obj fields) => (getField fields "participants").bind decodeLedger
  | _ => none

/-! ### Handler-level effects on the store -/

/-- The `/add` handler's effect on the store: validation runs before any
file access; on success the loaded data has its `participants` entry
replaced and is saved; every failure (including a crash while reading the
loaded value) leaves the file untouched. -/
def add_participant_run (store : Store) (uid name : String) (fe_value : Int) : Store :=
  if fe_value ≤ 0 then store
  else if tickets_from_fe fe_value = 0 then store
  else
    match load_data store with
    | .ok (JValue.obj fields) =>
        match (getField fields "participants").bind decodeLedger with
        | some ps =>
            save_data (JValue.obj (setField fields "participants"
              (ledgerJson (applyGrant ps uid name fe_value (tickets_from_fe fe_value)))))
        | none => store
    | _ => store

/-- The `/status` handler: loads, never saves. -/
def participant_status_run (store : Store) (uid : String) :
    Store × Option Participant :=
  (store, (loadParticipants store).bind fun ps => lookup? ps uid)

/-- The `/list` handler: loads, never saves. -/
def list_participants_run (store : Store) : Store × Option (List Participant) :=
  (store, (loadParticipants store).map list_participants)

/-- The `/draw` handler: loads, never saves. -/
def draw_winner_run (store : Store) (choice : Nat) :
    Store × Option (Except DrawError String) :=
  (store, (loadParticipants store).map fun ps => draw_winner ps choice)

/-- The `/reset` handler: `save_data` of a fresh empty mapping. -/
def reset_raffle_run (_store : Store) : Store :=
  save_data (JValue.obj [("participants", JValue.obj [])])

/-- The pre-call record of a participant: the stored record, or the all-zero
record the grant handler initializes for an absent id. -/
def preRecord (ps : Ledger) (uid : String) : Participant :=
  (lookup? ps uid).getD ⟨"", 0, 0⟩

end Raffle

namespace Raffle

/-! ### Helper lemmas -/

theorem lookup_eq_none_iff_hasKey (ps : Ledger) (uid : String) :
    lookup? ps uid = none ↔ hasKey ps uid = false := by
  induction ps with
  | nil => simp [lookup?, hasKey]
  | cons e rest ih =>
    by_cases h : e.1 = uid
    · simp [lookup?, hasKey, h]
    · simp [lookup?, hasKey, h, ih]

theorem lookup_append_single (ps : Ledger) (uid : String) (p : Participant)
    (h : lookup? ps uid = none) :
    lookup? (ps ++ [(uid, p)]) uid = some p := by
  induction ps with
  | nil => simp [lookup?]
  | cons e rest ih =>
    by_cases he : e.1 = uid
    · simp [lookup?, he] at h
    · simp only [lookup?, List.cons_append] at *
      simp [he] at h ⊢
      exact ih h

theorem lookup_updateEntry_self (ps : Ledger) (uid : String)
    (f : Participant → Participant) (p : Participant)
    (h : lookup? ps uid = some p) :
    lookup? (updateEntry ps uid f) uid = some (f p) := by
  induction ps with
  | nil => simp [lookup?] at h
  | cons e rest ih =>
    by_cases he : e.1 = uid
    · simp [lookup?, he] at h
      simp [updateEntry, lookup?, he, h]
    · simp [lookup?, he] at h
      simp [updateEntry, lookup?, he, ih h]

theorem lookup_updateEntry_ne (ps : Ledger) (uid q : String)
    (f : Participant → Participant) (hne : q ≠ uid) :
    lookup? (updateEntry ps uid f) q = lookup? ps q := by
  induction ps with
  | nil => simp [updateEntry]
  | cons e rest ih =>
    by_cases he : e.1 = uid
    · simp [updateEntry, lookup?, he, Ne.symm hne]
    · simp [updateEntry, lookup?, he, ih]

theorem lookup_append_single_ne (ps : Ledger) (uid q : String) (p : Participant)
    (hne : q ≠ uid) :
    lookup? (ps ++ [(uid, p)]) q = lookup? ps q := by
  induction ps with
  | nil => simp [lookup?, Ne.symm hne]
  | cons e rest ih =>
    by_cases he : e.1 = q
    · simp [lookup?, he]
    · simp [lookup?, he, ih]

theorem lookup_applyGrant_self (ps : Ledger) (uid name : String) (fe g : Int) :
    lookup? (applyGrant ps uid name fe g) uid =
      some ⟨name, (preRecord ps uid).fe_total + fe, (preRecord ps uid).tickets + g⟩ := by
  unfold applyGrant preRecord
  cases hl : lookup? ps uid with
  | some p =>
    have hk : hasKey ps uid = true := by
      rcases hhk : hasKey ps uid with _ | _
      · rw [← lookup_eq_none_iff_hasKey] at hhk
        rw [hl] at hhk; cases hhk
      · rfl
    simp only [hk, if_true]
    rw [lookup_updateEntry_self ps uid _ p hl]
    simp
  | none =>
    have hk : hasKey ps uid = false := (lookup_eq_none_iff_hasKey ps uid).mp hl
    simp only [hk, Bool.false_eq_true, if_false]
    rw [lookup_updateEntry_self _ uid _ ⟨name, 0, 0⟩ (lookup_append_single ps uid _ hl)]
    simp

theorem lookup_applyGrant_ne (ps : Ledger) (uid name q : String) (fe g : Int)
    (hne : q ≠ uid) :
    lookup? (applyGrant ps uid name fe g) q = lookup? ps q := by
  unfold applyGrant
  by_cases hk : hasKey ps uid
  · simp only [hk, if_true]
    exact lookup_updateEntry_ne _ uid q _ hne
  · simp only [hk, Bool.false_eq_true, if_false]
    rw [lookup_updateEntry_ne _ uid q _ hne, lookup_append_single_ne ps uid q _ hne]

end Raffle

namespace Raffle

theorem add_participant_ok (ps : Ledger) (uid name : String) (fe : Int) (ps2 : Ledger)
    (h : add_participant ps uid name fe = .ok ps2) :
    0 < fe ∧ 1 ≤ tickets_from_fe fe ∧
      ps2 = applyGrant ps uid name fe (tickets_from_fe fe) := by
  unfold add_participant at h
  by_cases h0 : fe ≤ 0
  · simp [h0] at h
  · simp only [h0, if_false] at h
    by_cases hg : tickets_from_fe fe = 0
    · simp [hg] at h
    · simp only [hg, if_false, Except.ok.injEq] at h
      have hpos : 0 < fe := lt_of_not_ge h0
      have hnn : 0 ≤ tickets_from_fe fe := by
        unfold tickets_from_fe TICKET_FE_RATIO
        exact Int.fdiv_nonneg (le_of_lt hpos) (by norm_num)
      exact ⟨hpos, by omega, h.symm⟩

theorem tickets_from_fe_eq_zero_of_lt (fe : Int) (h0 : 0 < fe) (h5 : fe < 5000) :
    tickets_from_fe fe = 0 := by
  obtain ⟨m, rfl⟩ := Int.eq_ofNat_of_zero_le (le_of_lt h0)
  have hm : m < 5000 := by exact_mod_cast h5
  unfold tickets_from_fe TICKET_FE_RATIO
  have h := (Int.ofNat_fdiv m 5000).symm
  rw [Nat.div_eq_of_lt hm] at h
  exact_mod_cast h

/-- C2: for every non-negative integer `v`, `tickets_from_fe v` is the floor
of `v / 5000`, i.e. it agrees with natural-number floor division. -/
theorem tickets_from_fe_floor (v : Nat) :
    tickets_from_fe (v : Int) = ((v / 5000 : Nat) : Int) := by
  have h := (Int.ofNat_fdiv v 5000).symm
  unfold tickets_from_fe TICKET_FE_RATIO
  exact_mod_cast h

/-- C1 (amended): after a successful grant the participant's `fe_total` and
`tickets` are at least their pre-call values; `fe_total` grows by exactly
`fe_value` and `tickets` by exactly `tickets_from_fe fe_value`.  (The ratio
invariant `tickets = fe_total // 5000` is not preserved in general; see the
counterexample.) -/
theorem add_participant_monotonic (ps : Ledger) (uid name : String)
    (fe : Int) (ps2 : Ledger)
    (hok : add_participant ps uid name fe = .ok ps2) :
    ∃ q, lookup? ps2 uid = some q ∧
      (preRecord ps uid).fe_total ≤ q.fe_total ∧
      (preRecord ps uid).tickets ≤ q.tickets ∧
      q.fe_total = (preRecord ps uid).fe_total + fe ∧
      q.tickets = (preRecord ps uid).tickets + tickets_from_fe fe := by
  obtain ⟨hpos, hone, rfl⟩ := add_participant_ok ps uid name fe ps2 hok
  refine ⟨_, lookup_applyGrant_self ps uid name fe _, ?_, ?_, rfl, rfl⟩
  · exact le_add_of_nonneg_right (le_of_lt hpos)
  · exact le_add_of_nonneg_right (by omega)

/-- C1 counterexample: starting from a reachable state where the invariant
`tickets = fe_total // 5000` holds (`fe_total = 7500`, `tickets = 1`), a
successful grant of `7500` yields `fe_total = 15000` with `tickets = 2`,
while `15000 // 5000 = 3` — the invariant does not survive the grant. -/
theorem add_participant_ratio_invariant_cex :
    tickets_from_fe 7500 = 1 ∧
    (1 : Int) = Int.fdiv 7500 TICKET_FE_RATIO ∧
    add_participant [("1", ⟨"u", 7500, 1⟩)] "1" "u" 7500 =
      .ok [("1", ⟨"u", 15000, 2⟩)] ∧
    (2 : Int) ≠ Int.fdiv 15000 TICKET_FE_RATIO :=
  ⟨by decide, by decide, rfl, by decide⟩

/-- C4: a successful grant initializes an absent record to all-zero fields,
refreshes the display name, adds `fe_value` to `fe_total` and
`tickets_from_fe fe_value` (at least 1) to `tickets`; the stored record
after the call carries exactly these new totals. -/
theorem add_participant_success_record (ps : Ledger) (uid name : String)
    (fe : Int) (ps2 : Ledger)
    (hok : add_participant ps uid name fe = .ok ps2) :
    1 ≤ tickets_from_fe fe ∧
    lookup? ps2 uid = some ⟨name, (preRecord ps uid).fe_total + fe,
      (preRecord ps uid).tickets + tickets_from_fe fe⟩ ∧
    (lookup? ps uid = none →
      lookup? ps2 uid = some ⟨name, 0 + fe, 0 + tickets_from_fe fe⟩) := by
  obtain ⟨hpos, hone, rfl⟩ := add_participant_ok ps uid name fe ps2 hok
  refine ⟨hone, lookup_applyGrant_self ps uid name fe _, fun hnone => ?_⟩
  have hpre : preRecord ps uid = ⟨"", 0, 0⟩ := by
    unfold preRecord
    rw [hnone]
    rfl
  rw [lookup_applyGrant_self ps uid name fe _, hpre]

end Raffle

namespace Raffle

/-- C3: a non-positive value is rejected as `invalidAmount` and the store is
untouched; a positive value below `5000` is rejected with the distinct
`noTicketsGranted` condition, store untouched; a value of exactly `5000`
succeeds and raises the participant's ticket count by exactly 1. -/
theorem add_participant_validation (ps : Ledger) (uid name : String) (fe : Int) :
    (fe ≤ 0 →
      add_participant ps uid name fe = .error .invalidAmount ∧
      ∀ store : Store, add_participant_run store uid name fe = store) ∧
    (0 < fe → fe < 5000 →
      add_participant ps uid name fe = .error .noTicketsGranted ∧
      ∀ store : Store, add_participant_run store uid name fe = store) ∧
    GrantError.invalidAmount ≠ GrantError.noTicketsGranted ∧
    (∃ ps2, add_participant ps uid name 5000 = .ok ps2 ∧
      ∃ q, lookup? ps2 uid = some q ∧
        q.tickets = (preRecord ps uid).tickets + 1) := by
  refine ⟨fun h0 => ⟨?_, fun store => ?_⟩, fun h0 h5 => ⟨?_, fun store => ?_⟩, by decide, ?_⟩
  · unfold add_participant
    simp [h0]
  · unfold add_participant_run
    simp [h0]
  · have hg := tickets_from_fe_eq_zero_of_lt fe h0 h5
    unfold add_participant
    simp [not_le.mpr h0, hg]
  · have hg := tickets_from_fe_eq_zero_of_lt fe h0 h5
    unfold add_participant_run
    simp [not_le.mpr h0, hg]
  · refine ⟨applyGrant ps uid name 5000 1, ?_, ?_⟩
    · unfold add_participant
      have h1 : tickets_from_fe 5000 = 1 := by decide
      norm_num [h1]
    · exact ⟨_, lookup_applyGrant_self ps uid name 5000 1, rfl⟩

/-- Witness for C3 at concrete inputs. -/
theorem add_participant_validation_witness :
    (add_participant [] "1" "n" (-5) = .error .invalidAmount ∧
      add_participant_run (some (JValue.int 3)) "1" "n" (-5) =
        some (JValue.int 3)) ∧
    (add_participant [] "1" "n" 4999 = .error .noTicketsGranted ∧
      add_participant_run (some (JValue.int 3)) "1" "n" 4999 =
        some (JValue.int 3)) :=
  ⟨⟨((add_participant_validation [] "1" "n" (-5)).1 (by norm_num)).1,
    ((add_participant_validation [] "1" "n" (-5)).1 (by norm_num)).2 _⟩,
   ⟨((add_participant_validation [] "1" "n" 4999).2.1 (by norm_num) (by norm_num)).1,
    ((add_participant_validation [] "1" "n" 4999).2.1 (by norm_num) (by norm_num)).2 _⟩⟩

theorem mem_build_pool (ps : Ledger) (x : String) (hx : x ∈ build_pool ps) :
    ∃ e ∈ ps, e.1 = x ∧ 0 < e.2.tickets := by
  unfold build_pool at hx
  rw [List.mem_flatMap] at hx
  obtain ⟨e, he, hxe⟩ := hx
  rw [List.mem_replicate] at hxe
  refine ⟨e, he, hxe.2.symm, ?_⟩
  by_contra hle
  exact hxe.1 (by rw [Int.toNat_eq_zero]; omega)

theorem count_build_pool_eq_zero (ps : Ledger) (uid : String)
    (h : ∀ e ∈ ps, e.1 ≠ uid) : (build_pool ps).count uid = 0 := by
  rw [List.count_eq_zero]
  intro hx
  obtain ⟨e, he, hex, _⟩ := mem_build_pool ps uid hx
  exact h e he hex

theorem build_pool_cons (e : String × Participant) (rest : Ledger) :
    build_pool (e :: rest) =
      List.replicate e.2.tickets.toNat e.1 ++ build_pool rest := rfl

theorem count_build_pool (ps : Ledger) (uid : String) (p : Participant)
    (hnodup : (ps.map Prod.fst).Nodup)
    (hl : lookup? ps uid = some p) :
    (build_pool ps).count uid = p.tickets.toNat := by
  induction ps with
  | nil => simp [lookup?] at hl
  | cons e rest ih =>
    simp only [List.map_cons, List.nodup_cons] at hnodup
    rw [build_pool_cons, List.count_append]
    by_cases he : e.1 = uid
    · simp only [lookup?, he, beq_self_eq_true, if_true, Option.some.injEq] at hl
      have hz : (build_pool rest).count uid = 0 := by
        refine count_build_pool_eq_zero rest uid fun e2 he2 hx => ?_
        exact hnodup.1 (by rw [he, ← hx]; exact List.mem_map_of_mem Prod.fst he2)
      rw [hz, he, List.count_replicate_self, hl]
      omega
    · have hz : (List.replicate e.2.tickets.toNat e.1).count uid = 0 := by
        rw [List.count_eq_zero]
        intro hmem
        exact he (List.eq_of_mem_replicate hmem).symm
      simp only [lookup?, he, beq_iff_eq, if_false] at hl
      rw [hz, ih hnodup.2 hl, Nat.zero_add]

theorem length_build_pool (ps : Ledger) :
    (build_pool ps).length = (ps.map fun e => e.2.tickets.toNat).sum := by
  induction ps with
  | nil => rfl
  | cons e rest ih =>
    rw [build_pool_cons, List.length_append, List.length_replicate, ih]
    simp

theorem sum_toNat_cast (ps : Ledger) (hnn : ∀ e ∈ ps, 0 ≤ e.2.tickets) :
    (((ps.map fun e => e.2.tickets.toNat).sum : Nat) : Int) =
      (ps.map fun e => e.2.tickets).sum := by
  induction ps with
  | nil => simp
  | cons e rest ih =>
    simp only [List.map_cons, List.sum_cons, Nat.cast_add]
    rw [Int.toNat_of_nonneg (hnn e (List.mem_cons_self e rest)),
      ih fun x hx => hnn x (List.mem_cons_of_mem e hx)]

/-- C5: over a duplicate-free ledger with non-negative ticket counts, each
participant id occurs in the pool exactly its `tickets` many times, absent
ids occur 0 times, the pool length is the sum of all ticket counts, and the
empty ledger yields the empty pool. -/
theorem build_pool_spec (ps : Ledger)
    (hnodup : (ps.map Prod.fst).Nodup)
    (hnn : ∀ e ∈ ps, 0 ≤ e.2.tickets) :
    (∀ uid p, lookup? ps uid = some p →
      ((build_pool ps).count uid : Int) = p.tickets) ∧
    (∀ uid, lookup? ps uid = none → (build_pool ps).count uid = 0) ∧
    ((build_pool ps).length : Int) = (ps.map fun e => e.2.tickets).sum ∧
    build_pool [] = ([] : List String) := by
  refine ⟨fun uid p hl => ?_, fun uid hl => ?_, ?_, rfl⟩
  · rw [count_build_pool ps uid p hnodup hl]
    have hp : 0 ≤ p.tickets := by
      have : ∃ e ∈ ps, e.2 = p := by
        clear hnodup hnn
        induction ps with
        | nil => simp [lookup?] at hl
        | cons e rest ih =>
          by_cases he : e.1 = uid
          · simp only [lookup?, he, beq_self_eq_true, if_true,
              Option.some.injEq] at hl
            exact ⟨e, List.mem_cons_self e rest, hl⟩
          · simp only [lookup?, he, beq_iff_eq, if_false] at hl
            obtain ⟨x, hx, hxp⟩ := ih hl
            exact ⟨x, List.mem_cons_of_mem e hx, hxp⟩
      obtain ⟨e, he, rfl⟩ := this
      exact hnn e he
    exact Int.toNat_of_nonneg hp
  · refine count_build_pool_eq_zero ps uid fun e he hx => ?_
    rw [lookup_eq_none_iff_hasKey] at hl
    have : hasKey ps uid = true := by
      unfold hasKey
      rw [List.any_eq_true]
      exact ⟨e, he, by simp [hx]⟩
    rw [hl] at this
    cases this
  · rw [length_build_pool]
    exact sum_toNat_cast ps hnn

/-- Witness for C5 at a concrete two-participant ledger. -/
theorem build_pool_spec_witness :
    ((build_pool [("1", ⟨"a", 10000, 2⟩), ("2", ⟨"b", 0, 0⟩)]).count "1" : Int) =
      (Participant.mk "a" 10000 2).tickets ∧
    (build_pool [("1", ⟨"a", 10000, 2⟩), ("2", ⟨"b", 0, 0⟩)]).count "3" = 0 ∧
    ((build_pool [("1", ⟨"a", 10000, 2⟩), ("2", ⟨"b", 0, 0⟩)]).length : Int) =
      ([("1", Participant.mk "a" 10000 2), ("2", Participant.mk "b" 0 0)].map
        fun e => e.2.tickets).sum :=
  ⟨(build_pool_spec [("1", ⟨"a", 10000, 2⟩), ("2", ⟨"b", 0, 0⟩)]
      (by decide) (by decide)).1 "1" ⟨"a", 10000, 2⟩ rfl,
   (build_pool_spec [("1", ⟨"a", 10000, 2⟩), ("2", ⟨"b", 0, 0⟩)]
      (by decide) (by decide)).2.1 "3" rfl,
   (build_pool_spec [("1", ⟨"a", 10000, 2⟩), ("2", ⟨"b", 0, 0⟩)]
      (by decide) (by decide)).2.2.1⟩

end Raffle

namespace Raffle

/-- C6: `draw_winner` fails with `emptyPool` exactly when the pool is empty
(in particular on the empty ledger), and whenever every positive-ticket
entry belongs to a single participant, every draw returns that id. -/
theorem draw_winner_spec (ps : Ledger) (uid : String) (choice : Nat) :
    (draw_winner ps choice = .error .emptyPool ↔ build_pool ps = []) ∧
    draw_winner reset_raffle choice = .error .emptyPool ∧
    (build_pool ps ≠ [] → (∀ e ∈ ps, 0 < e.2.tickets → e.1 = uid) →
      draw_winner ps choice = .ok uid) := by
  refine ⟨?_, rfl, fun hne hall => ?_⟩
  · unfold draw_winner
    by_cases h : (build_pool ps).isEmpty
    · simp [h, List.isEmpty_iff.mp h]
    · have : build_pool ps ≠ [] := fun hh => h (by rw [hh]; rfl)
      simp [h, this]
  · unfold draw_winner
    have hemp : (build_pool ps).isEmpty = false := by
      rcases h : (build_pool ps).isEmpty with _ | _
      · rfl
      · exact (hne (List.isEmpty_iff.mp h)).elim
    simp only [hemp, Bool.false_eq_true, if_false, Except.ok.injEq]
    have hlen : 0 < (build_pool ps).length :=
      List.length_pos.mpr hne
    have hidx : choice % (build_pool ps).length < (build_pool ps).length :=
      Nat.mod_lt _ hlen
    rw [List.getD_eq_getElem _ _ hidx]
    have hmem := List.getElem_mem hidx
    obtain ⟨e, he, hex, hpos⟩ := mem_build_pool ps _ hmem
    rw [← hex]
    exact hall e he hpos

/-- Witness for C6: a single participant holding two tickets wins any draw. -/
theorem draw_winner_spec_witness :
    build_pool [("1", ⟨"a", 10000, 2⟩)] ≠ [] ∧
    draw_winner [("1", ⟨"a", 10000, 2⟩)] 5 = .ok "1" :=
  ⟨by decide,
   (draw_winner_spec [("1", ⟨"a", 10000, 2⟩)] "1" 5).2.2 (by decide) (by decide)⟩

theorem decodePart_partJson (p : Participant) : decodePart (partJson p) = some p := rfl

theorem decodeLedger_ledgerJson (ps : Ledger) :
    decodeLedger (ledgerJson ps) = some ps := by
  unfold decodeLedger ledgerJson
  induction ps with
  | nil => rfl
  | cons e rest ih =>
    simp only [List.map_cons, decodeEntries, decodePart_partJson]
    simp only [List.map] at ih
    rw [ih]

/-- C7: saving the serialized form of any ledger and loading it back
succeeds and decodes to the very same ledger (the round trip is the
identity; the empty ledger is the `ps = []` instance). -/
theorem save_load_roundtrip (ps : Ledger) :
    load_data (save_data (dataJson ps)) = .ok (dataJson ps) ∧
    loadParticipants (save_data (dataJson ps)) = some ps := by
  constructor
  · rfl
  · unfold loadParticipants save_data dataJson
    simp only [load_data, hasField, ledgerJson]
    rw [if_pos (by rfl)]
    simp only [getField, beq_self_eq_true, if_true, Option.bind_some]
    exact decodeLedger_ledgerJson ps

/-- C8 counterexample: a stored record whose `participants` entry is not a
mapping (here the number `7`) is loaded successfully and returned as-is —
no `CorruptState`-like failure exists in `load_data`, even though the value
cannot be read back as a ledger. -/
theorem load_data_no_corrupt_check_cex :
    load_data (some (JValue.obj [("participants", JValue.int 7)])) =
      .ok (JValue.obj [("participants", JValue.int 7)]) ∧
    decodeLedger (JValue.int 7) = none ∧
    loadParticipants (some (JValue.obj [("participants", JValue.int 7)])) =
      none :=
  ⟨rfl, rfl, rfl⟩

/-- C8 (amended): an absent file and an empty record both load as the empty
ledger; any stored object is returned with a `participants` key ensured but
with no shape validation (a malformed shape is passed through, or raises an
uncaught `TypeError` on non-dict records, rather than a distinct
`CorruptState`). -/
theorem load_data_spec :
    load_data none = .ok (dataJson []) ∧
    loadParticipants none = some ([] : Ledger) ∧
    load_data (some (JValue.obj [])) = .ok (dataJson []) ∧
    (∀ fields, hasField fields "participants" = true →
      load_data (some (JValue.obj fields)) = .ok (JValue.obj fields)) ∧
    (∀ fields, hasField fields "participants" = false →
      load_data (some (JValue.obj fields)) =
        .ok (JValue.obj (fields ++ [("participants", JValue.obj [])]))) ∧
    load_data (some JValue.null) = .typeError := by
  refine ⟨rfl, rfl, rfl, fun fields h => ?_, fun fields h => ?_, rfl⟩
  · simp only [load_data, h, if_true]
  · simp only [load_data, h, Bool.false_eq_true, if_false]

/-- Witness for C8 at concrete stored records. -/
theorem load_data_spec_witness :
    load_data (some (JValue.obj [("participants", JValue.obj [])])) =
      .ok (JValue.obj [("participants", JValue.obj [])]) ∧
    load_data (some (JValue.obj [("other", JValue.int 1)])) =
      .ok (JValue.obj [("other", JValue.int 1),
        ("participants", JValue.obj [])]) :=
  ⟨load_data_spec.2.2.2.1 [("participants", JValue.obj [])] rfl,
   load_data_spec.2.2.2.2.1 [("other", JValue.int 1)] rfl⟩

end Raffle

namespace Raffle

theorem ticketsLE_trans (a b c : Participant)
    (hab : decide (b.tickets ≤ a.tickets) = true)
    (hbc : decide (c.tickets ≤ b.tickets) = true) :
    decide (c.tickets ≤ a.tickets) = true := by
  simp only [decide_eq_true_eq] at *
  exact le_trans hbc hab

theorem ticketsLE_total (a b : Participant) :
    (decide (b.tickets ≤ a.tickets) || decide (a.tickets ≤ b.tickets)) = true := by
  simp only [Bool.or_eq_true, decide_eq_true_eq]
  exact le_total b.tickets a.tickets

/-- C9: `list_participants` is sorted by `tickets` descending, contains
exactly the ledger's participant records, keeps tied records in input order
(stability — with determinism immediate since it is a function of the
ledger), and after a reset the list handler reports an empty ranking. -/
theorem list_participants_ranked (ps : Ledger) (store : Store) :
    (list_participants ps).Pairwise (fun a b => b.tickets ≤ a.tickets) ∧
    (list_participants ps).Perm (ps.map Prod.snd) ∧
    (∀ a b : Participant,
      ([a, b] : List Participant).Sublist (ps.map Prod.snd) →
      b.tickets ≤ a.tickets →
      ([a, b] : List Participant).Sublist (list_participants ps)) ∧
    list_participants reset_raffle = [] ∧
    (list_participants_run (reset_raffle_run store)).2 = some [] := by
  refine ⟨?_, List.mergeSort_perm _ _, fun a b hsub hle => ?_, ?_, ?_⟩
  · unfold list_participants
    exact List.Pairwise.imp (fun hab => of_decide_eq_true hab)
      (List.sorted_mergeSort ticketsLE_trans ticketsLE_total (ps.map Prod.snd))
  · unfold list_participants
    exact List.pair_sublist_mergeSort ticketsLE_trans ticketsLE_total
      (decide_eq_true hle) hsub
  · simp [list_participants, reset_raffle]
  · have h1 : loadParticipants (reset_raffle_run store) = some ([] : Ledger) := rfl
    simp [list_participants_run, h1, list_participants]

/-- Witness for C9's stability clause on a concrete tied ledger. -/
theorem list_participants_ranked_witness :
    ([⟨"a", 5000, 1⟩, ⟨"b", 5000, 1⟩] : List Participant).Sublist
      (list_participants [("1", ⟨"a", 5000, 1⟩), ("2", ⟨"b", 5000, 1⟩)]) :=
  (list_participants_ranked
    [("1", ⟨"a", 5000, 1⟩), ("2", ⟨"b", 5000, 1⟩)] none).2.2.1
    ⟨"a", 5000, 1⟩ ⟨"b", 5000, 1⟩ (by decide) (by decide)

/-- C10: a successful grant leaves every other participant's record exactly
as it was, and the status, list and draw handlers return the store they
were given (they load but never save). -/
theorem grant_frame (ps ps2 : Ledger) (uid name q : String) (fe : Int)
    (store : Store) (choice : Nat)
    (hok : add_participant ps uid name fe = .ok ps2) (hne : q ≠ uid) :
    lookup? ps2 q = lookup? ps q ∧
    (participant_status_run store q).1 = store ∧
    (list_participants_run store).1 = store ∧
    (draw_winner_run store choice).1 = store := by
  obtain ⟨_, _, rfl⟩ := add_participant_ok ps uid name fe ps2 hok
  exact ⟨lookup_applyGrant_ne ps uid name q fe _ hne, rfl, rfl, rfl⟩

/-- Witness for C10: granting to "1" does not touch "2"'s record. -/
theorem grant_frame_witness :
    add_participant [("2", ⟨"b", 5000, 1⟩)] "1" "n" 5000 =
      .ok [("2", ⟨"b", 5000, 1⟩), ("1", ⟨"n", 5000, 1⟩)] ∧
    lookup? [("2", ⟨"b", 5000, 1⟩), ("1", ⟨"n", 5000, 1⟩)] "2" =
      lookup? [("2", ⟨"b", 5000, 1⟩)] "2" :=
  ⟨rfl,
   (grant_frame [("2", ⟨"b", 5000, 1⟩)] [("2", ⟨"b", 5000, 1⟩), ("1", ⟨"n", 5000, 1⟩)]
     "1" "n" "2" 5000 none 0 rfl (by decide)).1⟩

/-- Witness for C1's amended monotonicity at a fresh grant of 12000. -/
theorem add_participant_monotonic_witness :
    ∃ q, lookup? [("1", Participant.mk "n" 12000 2)] "1" = some q ∧
      (preRecord [] "1").fe_total ≤ q.fe_total ∧
      (preRecord [] "1").tickets ≤ q.tickets ∧
      q.fe_total = (preRecord [] "1").fe_total + 12000 ∧
      q.tickets = (preRecord [] "1").tickets + tickets_from_fe 12000 :=
  add_participant_monotonic [] "1" "n" 12000 [("1", ⟨"n", 12000, 2⟩)] rfl

/-- Witness for C4 at a fresh grant of 7001. -/
theorem add_participant_success_record_witness :
    1 ≤ tickets_from_fe 7001 ∧
    lookup? [("1", Participant.mk "m" 7001 1)] "1" =
      some ⟨"m", (preRecord [] "1").fe_total + 7001,
        (preRecord [] "1").tickets + tickets_from_fe 7001⟩ ∧
    (lookup? ([] : Ledger) "1" = none →
      lookup? [("1", Participant.mk "m" 7001 1)] "1" =
        some ⟨"m", 0 + 7001, 0 + tickets_from_fe 7001⟩) :=
  add_participant_success_record [] "1" "m" 7001 [("1", ⟨"m", 7001, 1⟩)] rfl

end Raffle
